import Mathlib

set_option linter.unusedVariables false

/-!
Shallow embedding of the blob-ownership and replication-coordination core
(src/blobs.go of jalin107/cbfs).

Modelling conventions:

* A point in time (Go time.Time, UTC) is a Nat; the constant goHour stands
  for time.Hour, and Go durations are Nat differences (a future timestamp
  gives a truncated difference of 0, which, like a negative Go duration,
  compares below goHour).
* A Go map[string]T is an association list whose list order is one possible
  iteration order of the map.  A nil Go map is distinguished from an empty
  one by an Option wrapper (none = nil map): reads, deletes and len work on
  a nil map, but assigning into a nil map is a runtime panic.
* The bytes stored under an ownership key are abstracted by StoredVal:
  StoredVal.absent for a missing key / empty value (len(in) == 0),
  StoredVal.invalid for bytes on which json.Unmarshal fails, and
  StoredVal.record b for bytes decoding to the ownership record b.  JSON
  encoding round-trips BlobOwnership faithfully (a nil nodes map encodes as
  null and decodes back to nil), so mustEncode is the identity here.
* The result of a gomemcached CAS callback, ([]byte, CasOp) plus a possible
  runtime panic, is CasRes; interpCas applies it to the stored state, with
  none marking a crashed process.
* Store I/O faults and CAS retries are external to the embedded logic: the
  CAS loop serializes writers per key, so one closure application on the
  final observed value models the committed outcome.
-/

/-- Association list standing for a (non-nil) Go map[string]time.Time. -/
abbrev NodeMap := List (String × Nat)

/-- time.Hour, with timestamps in seconds. -/
def goHour : Nat := 3600

/-- Key membership: the comma-ok form m[k] of a Go map read. -/
def mcontains (m : NodeMap) (k : String) : Bool :=
  m.any (fun p => p.1 == k)

/-- Go map assignment m[k] = v on a non-nil map (replace or append). -/
def mset (m : NodeMap) (k : String) (v : Nat) : NodeMap :=
  if mcontains m k then m.map (fun p => if p.1 == k then (k, v) else p)
  else m ++ [(k, v)]

/-- Go delete(m, k). -/
def mdel (m : NodeMap) (k : String) : NodeMap :=
  m.filter (fun p => p.1 != k)

/-- Go map read m[k] returning the zero time.Time when the key is absent. -/
def mgetD (m : NodeMap) (k : String) : Nat :=
  ((m.find? (fun p => p.1 == k)).map Prod.snd).getD 0

/-- len on a possibly-nil Go map. -/
def nlen : Option NodeMap → Nat
  | none => 0
  | some m => m.length

/-- Comma-ok read on a possibly-nil Go map. -/
def ncontains : Option NodeMap → String → Bool
  | none, _ => false
  | some m, k => mcontains m k

/-- delete on a possibly-nil Go map (a no-op on nil). -/
def ndel : Option NodeMap → String → Option NodeMap
  | none, _ => none
  | some m, k => some (mdel m k)

/-- Zero-defaulting read on a possibly-nil Go map. -/
def ngetD : Option NodeMap → String → Nat
  | none, _ => 0
  | some m, k => mgetD m k

/-- The ownership record (type BlobOwnership, src/blobs.go:19-24).
Nodes = none models a nil Go map (e.g. decoded from json lacking a nodes
field); Typ embeds the Go field named Type, a reserved word here. -/
structure BlobOwnership where
  OID : String
  Length : Int
  Nodes : Option NodeMap
  Typ : String
deriving Repr, DecidableEq

/-- Abstraction of the bytes held at an ownership key. -/
inductive StoredVal where
  | absent
  | invalid
  | record (b : BlobOwnership)
deriving Repr, DecidableEq

/-- Result of one CAS callback run: CASStore with the encoded record,
CASQuit, CASDelete, or a runtime panic inside the callback. -/
inductive CasRes where
  | store (b : BlobOwnership)
  | quit
  | del
  | panicked
deriving Repr, DecidableEq

/-- Effect of a CAS callback result on the stored state; none = the process
crashed inside the callback. -/
def interpCas (s : StoredVal) : CasRes → Option StoredVal
  | .store b => some (.record b)
  | .quit => some s
  | .del => some .absent
  | .panicked => none

/-- The CAS callback of recordBlobOwnership (src/blobs.go:110-138).
On decode success with the local node already present and force unset it
quits; otherwise it assigns now into the nodes map — a runtime panic when
that map is nil — sets oid/length/type wholesale and stores.  On decode
failure (or an absent value, which also fails to unmarshal) it builds a
fresh one-node map. -/
def recordClosure (serverId h : String) (l : Int) (force : Bool) (now : Nat) :
    StoredVal → CasRes
  | .record b =>
      if ncontains b.Nodes serverId && !force then .quit
      else
        match b.Nodes with
        | none => .panicked
        | some m =>
            .store { OID := h, Length := l, Nodes := some (mset m serverId now), Typ := "blob" }
  | _ =>
      .store { OID := h, Length := l, Nodes := some [(serverId, now)], Typ := "blob" }

/-- recordBlobOwnership (src/blobs.go:110-138): state after the CAS commits.
The outer function maps CASQuit to a nil error, so every some result is the
non-error return; none is the nil-map panic. -/
def recordBlobOwnership (serverId h : String) (l : Int) (force : Bool) (now : Nat)
    (s : StoredVal) : Option StoredVal :=
  interpCas s (recordClosure serverId h l force now s)

/-- The two counter keys incremented by recordBlobAccess
(src/blobs.go:140-150): one keyed by blob id, one keyed by the local
(affirming) node id. -/
def recordBlobAccess (serverId h : String) : List String :=
  ["/" ++ h ++ "/r", "/" ++ serverId ++ "/r"]

/-- The CAS callback of removeBlobOwnershipRecord (src/blobs.go:158-187):
quit on an absent or undecodable value; else delete the node and either
CASDelete (empty map and the removed node is the local node) or store the
updated record back, even when its map is empty. -/
def removeClosure (serverId node : String) : StoredVal → CasRes
  | .absent => .quit
  | .invalid => .quit
  | .record b =>
      let nodes := ndel b.Nodes node
      if nlen nodes == 0 && node == serverId then .del
      else .store { b with Nodes := nodes }

/-- The numOwners variable captured by removeBlobOwnershipRecord: -1 unless
the callback reached the post-delete count. -/
def removeNumOwners (node : String) : StoredVal → Int
  | .absent => -1
  | .invalid => -1
  | .record b => (nlen (ndel b.Nodes node) : Int)

/-- Observable outcome of a removal entry point: resulting record state, the
returned owner count, and the store keys passed to couchbase.Delete. -/
structure RemovalOutcome where
  state : StoredVal
  numOwners : Int
  deletedKeys : List String
deriving Repr, DecidableEq

/-- removeBlobOwnershipRecord (src/blobs.go:153-199): runs the CAS callback
and, when the observed owner count is zero, deletes the blob access counter
key k + "/r". -/
def removeBlobOwnershipRecord (serverId h node : String) (s : StoredVal) : RemovalOutcome :=
  let n := removeNumOwners node s
  { state := (interpCas s (removeClosure serverId node s)).getD s
    numOwners := n
    deletedKeys := if n == 0 then ["/" ++ h ++ "/r"] else [] }

/-- The error values maybeRemoveBlobOwnership can report through rv. -/
inductive RvErr where
  | tooSoon
  | insufficientReplicas
  | decodeFailed
deriving Repr, DecidableEq

/-- The CAS callback of maybeRemoveBlobOwnership (src/blobs.go:207-244):
guards in order — too-soon (local affirmation younger than an hour; a
missing local entry reads as the zero time) then insufficient replicas —
before deleting self; an emptied map is always CASDeleted here.  Returns the
CAS decision, the captured rv error, and the removedLast flag. -/
def maybeRemoveClosure (serverId : String) (minReplicas : Int) (now : Nat) :
    StoredVal → CasRes × Option RvErr × Bool
  | .absent => (.quit, none, false)
  | .invalid => (.quit, some .decodeFailed, false)
  | .record b =>
      if now - ngetD b.Nodes serverId < goHour then (.quit, some .tooSoon, false)
      else if (nlen b.Nodes : Int) - 1 < minReplicas then (.quit, some .insufficientReplicas, false)
      else
        let nodes := ndel b.Nodes serverId
        if nlen nodes == 0 then (.del, none, true)
        else (.store { b with Nodes := nodes }, none, false)

/-- Observable outcome of maybeRemoveBlobOwnership. -/
structure MaybeRemoveOutcome where
  rv : Option RvErr
  state : StoredVal
  removedLast : Bool
  deletedKeys : List String
deriving Repr, DecidableEq

/-- maybeRemoveBlobOwnership (src/blobs.go:201-255): runs the guarded CAS
callback and deletes the blob access counter key exactly when the last owner
was removed. -/
def maybeRemoveBlobOwnership (serverId h : String) (minReplicas : Int) (now : Nat)
    (s : StoredVal) : MaybeRemoveOutcome :=
  let r := maybeRemoveClosure serverId minReplicas now s
  { rv := r.2.1
    state := (interpCas s r.1).getD s
    removedLast := r.2.2
    deletedKeys := if r.2.2 then ["/" ++ h ++ "/r"] else [] }

/-- Whether a stored value is free of the nil-nodes corner (every record it
holds carries a non-nil map). -/
def wfState : StoredVal → Bool
  | .record b => b.Nodes.isSome
  | _ => true

/-- Serialized application of recordBlobOwnership CAS closures (force =
false) for a list of (node id, timestamp) affirmations: the per-key CAS
serialization of concurrent affirmations (src/blobs.go:110-138). -/
def serializeAffirmations (h : String) (l : Int) :
    List (String × Nat) → StoredVal → Option StoredVal
  | [], s => some s
  | (sid, now) :: rest, s =>
      match recordBlobOwnership sid h l false now s with
      | none => none
      | some s' => serializeAffirmations h l rest s'

/-- A storage node descriptor; only the name field matters to this core's
control flow (type StorageNode elsewhere in the repo). -/
structure StorageNode where
  name : String
deriving Repr, DecidableEq

/-- The nm map of pruneBlob, built by ranging over nl with last write
winning: lookup returns the last node in nl carrying the name. -/
def nodeByName (nl : List StorageNode) (n : String) : Option StorageNode :=
  nl.reverse.find? (fun sn => sn.name == n)

/-- A queued removal task (queueBlobRemoval, src/blobs.go:490-496). -/
structure RemovalTask where
  node : StorageNode
  oid : String
deriving Repr, DecidableEq

/-- The countdown loop of pruneBlob (src/blobs.go:342-351): iterate the
owner map, stop once the unprocessed remainder is within the maximum, and
enqueue a removal for each processed owner that resolves in nm. -/
def pruneLoop (maxR : Int) (oid : String) (nm : String → Option StorageNode) :
    Int → List (String × String) → List RemovalTask
  | _, [] => []
  | remaining, (n, _) :: rest =>
      if remaining ≤ maxR then []
      else
        match nm n with
        | some sn => ⟨sn, oid⟩ :: pruneLoop maxR oid nm (remaining - 1) rest
        | none => pruneLoop maxR oid nm (remaining - 1) rest

/-- pruneBlob (src/blobs.go:328-353): the removal tasks it enqueues, with
the owner map given in its (unspecified) iteration order. -/
def pruneBlob (maxR : Int) (oid : String) (nodemap : List (String × String))
    (nl : List StorageNode) : List RemovalTask :=
  pruneLoop maxR oid (nodeByName nl) (nodemap.length : Int) nodemap

/-- Parameters of the cbfs/repcounts view query issued by
ensureMinimumReplicaCountTask (src/blobs.go:305-313). -/
structure RepcountsQuery where
  reduceOpt : Bool
  limit : Int
  startkey : Int
  endkey : Int
  staleOpt : Bool
deriving Repr, DecidableEq

/-- One salvageBlob invocation: blob id, dead-node id, node list. -/
structure SalvageCall where
  oid : String
  deadNode : String
  nodes : List StorageNode
deriving Repr, DecidableEq

/-- ensureMinimumReplicaCountTask (src/blobs.go:279-326): the view query it
issues and the salvage calls it makes for the returned row ids (each row id
carries a leading "/" that is sliced off). -/
def ensureMinimumReplicaCountTask (minReplicas checkLimit : Int)
    (nl : List StorageNode) (rows : List String) : RepcountsQuery × List SalvageCall :=
  let endKey : Int :=
    if minReplicas > (nl.length : Int) then (nl.length : Int) - 1 else minReplicas - 1
  (⟨false, checkLimit, 1, endKey, false⟩, rows.map (fun id => ⟨id.drop 1, "", nl⟩))

/-- Environment observed by one performFetch call: the os.Stat result for
the local blob file, the outcome of getBlobFromRemote (error flag and
captured status code), and the findNode lookup. -/
structure FetchEnv where
  localSize : Option Int
  remoteErr : Bool
  remoteStatus : Nat
  findNode : String → Option StorageNode

/-- Externally visible actions a performFetch call can take, in order. -/
inductive FetchAction where
  | affirmOwnership (oid : String) (size : Int) (force : Bool)
  | remoteFetch (oid : String)
  | queueRemoval (n : StorageNode) (oid : String)
  | removeOwnerRecord (oid : String) (node : String)
deriving Repr, DecidableEq

/-- performFetch (src/blobs.go:407-441): with a local copy, re-affirm
ownership non-forced and return; otherwise pull remotely and, only on a
clean 200 with a previous owner named, either enqueue a removal at the
resolved node or fall back to editing the ownership record directly. -/
def performFetch (env : FetchEnv) (oid prev : String) : List FetchAction :=
  match env.localSize with
  | some sz => [.affirmOwnership oid sz false]
  | none =>
      .remoteFetch oid ::
        (if !env.remoteErr && env.remoteStatus == 200 then
          (if prev != "" then
            (match env.findNode prev with
             | none => [.removeOwnerRecord oid prev]
             | some n => [.queueRemoval n oid])
           else [])
         else [])

/-- A queued internode task (type internodeTask, src/blobs.go:34-39); cmd
embeds the uint8 command tag. -/
structure InternodeTask where
  node : StorageNode
  cmd : Nat
  oid : String
  prevNode : String
deriving Repr, DecidableEq

/-- The internodeCommand constants (src/blobs.go:28-32). -/
def removeObjectCmd : Nat := 0

def acquireObjectCmd : Nat := 1

def fetchObjectCmd : Nat := 2

/-- What the worker switch does with one task: the three recognized
commands, or the log.Fatalf default. -/
inductive WorkerOutcome where
  | removeLocalCopy (n : StorageNode) (oid : String)
  | acquireCopy (n : StorageNode) (oid prev : String)
  | fetchCopy (oid prev : String)
  | fatalError
deriving Repr, DecidableEq

/-- The switch of internodeTaskWorker (src/blobs.go:460-480). -/
def dispatchTask (t : InternodeTask) : WorkerOutcome :=
  if t.cmd = removeObjectCmd then .removeLocalCopy t.node t.oid
  else if t.cmd = acquireObjectCmd then .acquireCopy t.node t.oid t.prevNode
  else if t.cmd = fetchObjectCmd then .fetchCopy t.oid t.prevNode
  else .fatalError

/-- internodeTaskWorker (src/blobs.go:458-482) over a queue prefix:
log.Fatalf exits the process, so a fatal task ends the trace and nothing
after it is processed. -/
def internodeTaskWorker : List InternodeTask → List WorkerOutcome
  | [] => []
  | t :: rest =>
      match dispatchTask t with
      | .fatalError => [.fatalError]
      | o => o :: internodeTaskWorker rest

theorem mcontains_append (m1 m2 : NodeMap) (k : String) :
    mcontains (m1 ++ m2) k = (mcontains m1 k || mcontains m2 k) := by
  simp [mcontains, List.any_append]

theorem mcontains_mset (m : NodeMap) (s k : String) (v : Nat) :
    mcontains (mset m s v) k = (mcontains m k || s == k) := by
  unfold mset
  by_cases hc : mcontains m s
  · simp only [hc, if_true]
    by_cases hsk : s = k
    · subst hsk
      simp only [beq_self_eq_true, Bool.or_true]
      simp only [mcontains, List.any_eq_true, beq_iff_eq] at hc ⊢
      obtain ⟨p, hp, he⟩ := hc
      refine ⟨(s, v), List.mem_map.mpr ⟨p, hp, ?_⟩, rfl⟩
      simp [he]
    · have hk : (s == k) = false := by simp [hsk]
      rw [hk, Bool.or_false]
      have hfun : ∀ p : String × Nat,
          (((if p.1 == s then (s, v) else p) : String × Nat).1 == k) = (p.1 == k) := by
        intro p
        by_cases hps : p.1 = s
        · simp [hps, hk, hsk]
        · simp [hps]
      simp only [mcontains, List.any_map]
      congr 1
      funext p
      simpa using hfun p
  · simp only [hc, if_false]
    simp [mcontains_append, mcontains]

theorem mcontains_mset_self (m : NodeMap) (k : String) (v : Nat) :
    mcontains (mset m k v) k = true := by
  simp [mcontains_mset]

/-- Claim C1: removeOwner on an existing, decodable record deletes the whole
record only when the post-removal owner count is zero and the removing node
is the local node; in every other case the updated record is written back
even with an empty owner map, so a non-local removal that empties the map
leaves behind a record with zero owners rather than deleting it. -/
theorem removeOwner_asymmetric_deletion (serverId h node : String) (b : BlobOwnership) :
    (nlen (ndel b.Nodes node) = 0 → node = serverId →
      (removeBlobOwnershipRecord serverId h node (.record b)).state = .absent) ∧
    (¬ (nlen (ndel b.Nodes node) = 0 ∧ node = serverId) →
      (removeBlobOwnershipRecord serverId h node (.record b)).state =
        .record { b with Nodes := ndel b.Nodes node }) ∧
    (node ≠ serverId → nlen (ndel b.Nodes node) = 0 →
      ∃ b', (removeBlobOwnershipRecord serverId h node (.record b)).state = .record b' ∧
        nlen b'.Nodes = 0) := by
  have hstore : ¬ (nlen (ndel b.Nodes node) = 0 ∧ node = serverId) →
      (removeBlobOwnershipRecord serverId h node (.record b)).state =
        .record { b with Nodes := ndel b.Nodes node } := by
    intro hno
    by_cases h0 : nlen (ndel b.Nodes node) = 0
    · have hne : node ≠ serverId := fun he => hno ⟨h0, he⟩
      simp [removeBlobOwnershipRecord, removeClosure, interpCas, h0, hne]
    · simp [removeBlobOwnershipRecord, removeClosure, interpCas, h0]
  refine ⟨?_, hstore, ?_⟩
  · intro h0 he
    subst he
    simp [removeBlobOwnershipRecord, removeClosure, interpCas, h0]
  · intro hne h0
    exact ⟨{ b with Nodes := ndel b.Nodes node },
      hstore (fun hand => hne hand.2), h0⟩

/-- Witness for removeOwner_asymmetric_deletion: node B, not the local node
A, removes itself as sole owner of w1 and an empty-map record survives. -/
theorem removeOwner_asymmetric_deletion_witness :
    ∃ b', (removeBlobOwnershipRecord "A" "w1" "B"
        (.record ⟨"w1", 1, some [("B", 5)], "blob"⟩)).state = .record b' ∧
      nlen b'.Nodes = 0 :=
  (removeOwner_asymmetric_deletion "A" "w1" "B" ⟨"w1", 1, some [("B", 5)], "blob"⟩).2.2
    (by decide) (by decide)

/-- Counterexample to claim C2: non-local node B removes the last owner of
blob x1 on the node with local id A; the observed owner count is zero, yet
only the blob-id counter key is deleted — the key for the counter keyed by
the affirming node id (the second key of recordBlobAccess) is not. -/
theorem counter_deletion_not_both :
    (removeBlobOwnershipRecord "A" "x1" "B"
        (.record ⟨"x1", 1, some [("B", 5)], "blob"⟩)).numOwners = 0 ∧
    (removeBlobOwnershipRecord "A" "x1" "B"
        (.record ⟨"x1", 1, some [("B", 5)], "blob"⟩)).deletedKeys = ["/x1/r"] ∧
    recordBlobAccess "A" "x1" = ["/x1/r", "/A/r"] ∧
    "/A/r" ∉ (removeBlobOwnershipRecord "A" "x1" "B"
        (.record ⟨"x1", 1, some [("B", 5)], "blob"⟩)).deletedKeys := by
  refine ⟨by decide, by decide, by decide, ?_⟩
  decide

/-- Claim C2 amended: when either removal path observes a post-removal
owner count of zero, exactly the access counter keyed by the blob id is
deleted; the counter keyed by the affirming node id (also incremented by
recordBlobAccess) is never among the deleted keys of either path. -/
theorem counter_deletion_blob_key_only (serverId h node : String) (s : StoredVal)
    (minReplicas : Int) (now : Nat) :
    ((removeBlobOwnershipRecord serverId h node s).numOwners = 0 →
      (removeBlobOwnershipRecord serverId h node s).deletedKeys = ["/" ++ h ++ "/r"]) ∧
    ((removeBlobOwnershipRecord serverId h node s).numOwners ≠ 0 →
      (removeBlobOwnershipRecord serverId h node s).deletedKeys = []) ∧
    ((maybeRemoveBlobOwnership serverId h minReplicas now s).removedLast = true →
      (maybeRemoveBlobOwnership serverId h minReplicas now s).deletedKeys =
        ["/" ++ h ++ "/r"]) ∧
    ((maybeRemoveBlobOwnership serverId h minReplicas now s).removedLast = false →
      (maybeRemoveBlobOwnership serverId h minReplicas now s).deletedKeys = []) ∧
    recordBlobAccess serverId h = ["/" ++ h ++ "/r", "/" ++ serverId ++ "/r"] := by
  refine ⟨?_, ?_, ?_, ?_, rfl⟩
  · intro h0
    simp only [removeBlobOwnershipRecord] at h0 ⊢
    simp [h0]
  · intro h0
    simp only [removeBlobOwnershipRecord] at h0 ⊢
    simp [h0]
  · intro h0
    simp only [maybeRemoveBlobOwnership] at h0 ⊢
    simp [h0]
  · intro h0
    simp only [maybeRemoveBlobOwnership] at h0 ⊢
    simp [h0]

/-- Witness for counter_deletion_blob_key_only: the local node A removes
itself as sole owner of w2; the observed count is zero and the deleted key
list is exactly the blob-id counter key. -/
theorem counter_deletion_blob_key_only_witness :
    (removeBlobOwnershipRecord "A" "w2" "A"
        (.record ⟨"w2", 1, some [("A", 5)], "blob"⟩)).deletedKeys = ["/w2/r"] :=
  (counter_deletion_blob_key_only "A" "w2" "A"
      (.record ⟨"w2", 1, some [("A", 5)], "blob"⟩) 1 0).1 (by decide)

/-- Claim C3 amended: removeSelfSafely on an existing record checks the
too-soon guard first (local affirmation younger than one hour, failing
without any change), then the insufficient-replicas guard (removal would
drop the count below the configured minimum, failing without any change);
only when both pass is the local node removed, and an emptied map always
deletes the record and its blob-id access counter (the counter keyed by the
affirming node id is not deleted — see the C2 correction). -/
theorem maybeRemove_guards (serverId h : String) (minReplicas : Int) (now : Nat)
    (b : BlobOwnership) :
    (now - ngetD b.Nodes serverId < goHour →
      (maybeRemoveBlobOwnership serverId h minReplicas now (.record b)).rv =
        some .tooSoon ∧
      (maybeRemoveBlobOwnership serverId h minReplicas now (.record b)).state =
        .record b ∧
      (maybeRemoveBlobOwnership serverId h minReplicas now (.record b)).deletedKeys = []) ∧
    (¬ now - ngetD b.Nodes serverId < goHour →
      (nlen b.Nodes : Int) - 1 < minReplicas →
      (maybeRemoveBlobOwnership serverId h minReplicas now (.record b)).rv =
        some .insufficientReplicas ∧
      (maybeRemoveBlobOwnership serverId h minReplicas now (.record b)).state =
        .record b ∧
      (maybeRemoveBlobOwnership serverId h minReplicas now (.record b)).deletedKeys = []) ∧
    (¬ now - ngetD b.Nodes serverId < goHour →
      ¬ (nlen b.Nodes : Int) - 1 < minReplicas →
      (maybeRemoveBlobOwnership serverId h minReplicas now (.record b)).rv = none ∧
      (nlen (ndel b.Nodes serverId) = 0 →
        (maybeRemoveBlobOwnership serverId h minReplicas now (.record b)).state =
          .absent ∧
        (maybeRemoveBlobOwnership serverId h minReplicas now (.record b)).deletedKeys =
          ["/" ++ h ++ "/r"]) ∧
      (nlen (ndel b.Nodes serverId) ≠ 0 →
        (maybeRemoveBlobOwnership serverId h minReplicas now (.record b)).state =
          .record { b with Nodes := ndel b.Nodes serverId } ∧
        (maybeRemoveBlobOwnership serverId h minReplicas now (.record b)).deletedKeys =
          [])) := by
  refine ⟨?_, ?_, ?_⟩
  · intro hsoon
    simp [maybeRemoveBlobOwnership, maybeRemoveClosure, interpCas, hsoon]
  · intro hsoon hrepl
    simp [maybeRemoveBlobOwnership, maybeRemoveClosure, interpCas, hsoon, hrepl]
  · intro hsoon hrepl
    refine ⟨?_, ?_, ?_⟩
    · by_cases h0 : nlen (ndel b.Nodes serverId) = 0 <;>
        simp [maybeRemoveBlobOwnership, maybeRemoveClosure, interpCas, hsoon, hrepl, h0]
    · intro h0
      simp [maybeRemoveBlobOwnership, maybeRemoveClosure, interpCas, hsoon, hrepl, h0]
    · intro h0
      simp [maybeRemoveBlobOwnership, maybeRemoveClosure, interpCas, hsoon, hrepl, h0]

/-- Witness for maybeRemove_guards, the spec's worked example: minimum
replicas 3, owners A and B affirmed at time 0, now one hour on; self-removal
by A fails with the insufficient-replicas condition and changes nothing. -/
theorem maybeRemove_guards_witness :
    (maybeRemoveBlobOwnership "A" "o3" 3 goHour
        (.record ⟨"o3", 1, some [("A", 0), ("B", 0)], "blob"⟩)).rv =
      some .insufficientReplicas ∧
    (maybeRemoveBlobOwnership "A" "o3" 3 goHour
        (.record ⟨"o3", 1, some [("A", 0), ("B", 0)], "blob"⟩)).state =
      .record ⟨"o3", 1, some [("A", 0), ("B", 0)], "blob"⟩ := by
  have h := (maybeRemove_guards "A" "o3" 3 goHour
      ⟨"o3", 1, some [("A", 0), ("B", 0)], "blob"⟩).2.1 (by decide) (by decide)
  exact ⟨h.1, h.2.1⟩

/-- Counterexample to claim C3 as frozen, whose conclusion has an emptied
map always deleting the record "and its counters" — both access counters of
the data model.  Node A self-removes as sole owner of x3 with minimum
replicas 0, one hour after affirming: both guards pass, the record is
deleted with the last owner observed removed, yet the deleted key list is
exactly the blob-id counter key — the key of the counter keyed by the
affirming node id (the second key incremented by recordBlobAccess) is not
deleted. -/
theorem maybeRemove_counters_not_both :
    (maybeRemoveBlobOwnership "A" "x3" 0 goHour
        (.record ⟨"x3", 1, some [("A", 0)], "blob"⟩)).rv = none ∧
    (maybeRemoveBlobOwnership "A" "x3" 0 goHour
        (.record ⟨"x3", 1, some [("A", 0)], "blob"⟩)).state = .absent ∧
    (maybeRemoveBlobOwnership "A" "x3" 0 goHour
        (.record ⟨"x3", 1, some [("A", 0)], "blob"⟩)).removedLast = true ∧
    (maybeRemoveBlobOwnership "A" "x3" 0 goHour
        (.record ⟨"x3", 1, some [("A", 0)], "blob"⟩)).deletedKeys = ["/x3/r"] ∧
    recordBlobAccess "A" "x3" = ["/x3/r", "/A/r"] ∧
    "/A/r" ∉ (maybeRemoveBlobOwnership "A" "x3" 0 goHour
        (.record ⟨"x3", 1, some [("A", 0)], "blob"⟩)).deletedKeys := by
  decide

/-- Claim C4 amended: recordAffirmation on a decodable record with a
present (non-nil) nodes map already containing the local node with force
unset returns without error and leaves the record unchanged; in every other
case with a present nodes map the local timestamp is set to now and
oid/length/type are overwritten; an absent or undecodable value yields a
fresh record holding only the local node; and a second non-forced
affirmation right after a first one changes nothing.  (A record decoding
with a nil nodes map and without the local node panics instead — the C10
bug — which is why the frozen claim's unrestricted every-other-case
overwrite is false.) -/
theorem recordAffirmation_spec (sid h : String) (l : Int) (now now2 : Nat) :
    (∀ b m, b.Nodes = some m → mcontains m sid = true →
      recordBlobOwnership sid h l false now (.record b) = some (.record b)) ∧
    (∀ b m force, b.Nodes = some m → (mcontains m sid && !force) = false →
      recordBlobOwnership sid h l force now (.record b) =
        some (.record ⟨h, l, some (mset m sid now), "blob"⟩)) ∧
    (∀ force, recordBlobOwnership sid h l force now .absent =
        some (.record ⟨h, l, some [(sid, now)], "blob"⟩) ∧
      recordBlobOwnership sid h l force now .invalid =
        some (.record ⟨h, l, some [(sid, now)], "blob"⟩)) ∧
    (∀ s, wfState s = true → ∃ s', recordBlobOwnership sid h l false now s = some s' ∧
      recordBlobOwnership sid h l false now2 s' = some s') := by
  have quit : ∀ (t : Nat) (b : BlobOwnership) (m : NodeMap), b.Nodes = some m →
      mcontains m sid = true →
      recordBlobOwnership sid h l false t (.record b) = some (.record b) := by
    intro t b m hb hc
    simp [recordBlobOwnership, recordClosure, interpCas, ncontains, hb, hc]
  have store : ∀ (b : BlobOwnership) (m : NodeMap) (force : Bool), b.Nodes = some m →
      (mcontains m sid && !force) = false →
      recordBlobOwnership sid h l force now (.record b) =
        some (.record ⟨h, l, some (mset m sid now), "blob"⟩) := by
    intro b m force hb hcond
    simp [recordBlobOwnership, recordClosure, interpCas, ncontains, hb, hcond]
  refine ⟨quit now, store, fun force => ⟨rfl, rfl⟩, ?_⟩
  intro s hw
  cases s with
  | absent =>
      refine ⟨.record ⟨h, l, some [(sid, now)], "blob"⟩, rfl, ?_⟩
      exact quit now2 _ [(sid, now)] rfl (by simp [mcontains])
  | invalid =>
      refine ⟨.record ⟨h, l, some [(sid, now)], "blob"⟩, rfl, ?_⟩
      exact quit now2 _ [(sid, now)] rfl (by simp [mcontains])
  | record b =>
      simp only [wfState] at hw
      obtain ⟨m, hm⟩ := Option.isSome_iff_exists.mp hw
      by_cases hc : mcontains m sid
      · exact ⟨.record b, quit now b m hm hc, quit now2 b m hm hc⟩
      · refine ⟨.record ⟨h, l, some (mset m sid now), "blob"⟩,
          store b m false hm (by simp [hc]), ?_⟩
        exact quit now2 _ (mset m sid now) rfl (mcontains_mset_self m sid now)

/-- Witness for recordAffirmation_spec: node A re-affirms w4 non-forced
while already present; the stored record is returned unchanged. -/
theorem recordAffirmation_spec_witness :
    recordBlobOwnership "A" "w4" 9 false 11 (.record ⟨"w4", 9, some [("A", 5)], "blob"⟩) =
      some (.record ⟨"w4", 9, some [("A", 5)], "blob"⟩) :=
  (recordAffirmation_spec "A" "w4" 9 11 12).1 ⟨"w4", 9, some [("A", 5)], "blob"⟩
    [("A", 5)] rfl (by decide)

/-- Counterexample to claim C4 as frozen: a record decoding successfully
with a nil nodes map and the local node B absent falls under the claim's
unrestricted every-other-case clause, which promises the timestamp is set
and the fields overwritten; instead the callback hits the nil-map
assignment and the call crashes — it neither stores an updated record nor
leaves the record as a no-op. -/
theorem recordAffirmation_nil_nodes_no_overwrite :
    recordBlobOwnership "B" "w4c" 2 false 3 (.record ⟨"w4c", 2, none, "blob"⟩) = none ∧
    recordBlobOwnership "B" "w4c" 2 false 3 (.record ⟨"w4c", 2, none, "blob"⟩) ≠
      some (.record ⟨"w4c", 2, none, "blob"⟩) ∧
    recordClosure "B" "w4c" 2 false 3 (.record ⟨"w4c", 2, none, "blob"⟩) = .panicked := by
  decide

theorem serialize_invariant (h : String) (l : Int) (apps : List (String × Nat))
    (m : NodeMap) :
    ∃ m', serializeAffirmations h l apps (.record ⟨h, l, some m, "blob"⟩) =
        some (.record ⟨h, l, some m', "blob"⟩) ∧
      ∀ k, mcontains m' k = (mcontains m k || (apps.map Prod.fst).contains k) := by
  induction apps generalizing m with
  | nil =>
      exact ⟨m, rfl, fun k => by simp [List.contains]⟩
  | cons p rest ih =>
      obtain ⟨sid, now⟩ := p
      by_cases hc : mcontains m sid
      · obtain ⟨m', h1, h2⟩ := ih m
        have hstep : recordBlobOwnership sid h l false now (.record ⟨h, l, some m, "blob"⟩) =
            some (.record ⟨h, l, some m, "blob"⟩) := by
          simp [recordBlobOwnership, recordClosure, interpCas, ncontains, hc]
        refine ⟨m', by simp [serializeAffirmations, hstep, h1], ?_⟩
        intro k
        rw [h2 k]
        simp only [List.map_cons, List.contains_cons]
        by_cases hk : k = sid
        · subst hk; simp [hc]
        · have hks : (k == sid) = false := beq_eq_false_iff_ne.mpr hk
          simp [hks]
      · obtain ⟨m', h1, h2⟩ := ih (mset m sid now)
        have hstep : recordBlobOwnership sid h l false now (.record ⟨h, l, some m, "blob"⟩) =
            some (.record ⟨h, l, some (mset m sid now), "blob"⟩) := by
          simp [recordBlobOwnership, recordClosure, interpCas, ncontains, hc]
        refine ⟨m', by simp [serializeAffirmations, hstep, h1], ?_⟩
        intro k
        rw [h2 k, mcontains_mset]
        simp only [List.map_cons, List.contains_cons]
        by_cases hk : k = sid
        · subst hk; simp
        · have hk1 : (k == sid) = false := beq_eq_false_iff_ne.mpr hk
          have hk2 : (sid == k) = false :=
            beq_eq_false_iff_ne.mpr (fun he => hk he.symm)
          simp [hk1, hk2]

/-- Claim C6: any CAS serialization of concurrent non-forced affirmations by
distinct node ids on one blob, starting from an absent record, converges to
a record whose owner set is exactly the set of participating node ids. -/
theorem concurrent_affirmations_converge (h : String) (l : Int)
    (apps : List (String × Nat)) (hne : apps ≠ [])
    (hnd : (apps.map Prod.fst).Nodup) :
    ∃ m, serializeAffirmations h l apps .absent = some (.record ⟨h, l, some m, "blob"⟩) ∧
      ∀ k, mcontains m k = (apps.map Prod.fst).contains k := by
  cases apps with
  | nil => exact absurd rfl hne
  | cons p rest =>
      obtain ⟨sid, now⟩ := p
      have h1 : serializeAffirmations h l ((sid, now) :: rest) .absent =
          serializeAffirmations h l rest (.record ⟨h, l, some [(sid, now)], "blob"⟩) := by
        simp [serializeAffirmations, recordBlobOwnership, recordClosure, interpCas]
      obtain ⟨m', h2, h3⟩ := serialize_invariant h l rest [(sid, now)]
      refine ⟨m', by rw [h1]; exact h2, ?_⟩
      intro k
      rw [h3 k]
      simp only [List.map_cons, List.contains_cons, mcontains, List.any_cons, List.any_nil]
      by_cases hk : k = sid
      · subst hk; simp
      · have hk1 : (k == sid) = false := beq_eq_false_iff_ne.mpr hk
        have hk2 : (sid == k) = false :=
          beq_eq_false_iff_ne.mpr (fun he => hk he.symm)
        simp [hk1, hk2]

/-- Witness for concurrent_affirmations_converge: two distinct nodes n1 and
n2 affirm oidc; the final owner set is exactly the pair of their ids. -/
theorem concurrent_affirmations_converge_witness :
    ∃ m, serializeAffirmations "oidc" 7 [("n1", 1), ("n2", 2)] .absent =
        some (.record ⟨"oidc", 7, some m, "blob"⟩) ∧
      ∀ k, mcontains m k = ([("n1", 1), ("n2", 2)].map Prod.fst).contains k :=
  concurrent_affirmations_converge "oidc" 7 [("n1", 1), ("n2", 2)]
    (by decide) (by decide)

theorem length_filterMap_all_some {α β : Type} (f : α → Option β) (l : List α)
    (hall : ∀ a ∈ l, (f a).isSome = true) : (l.filterMap f).length = l.length := by
  induction l with
  | nil => rfl
  | cons a rest ih =>
      obtain ⟨b, hb⟩ := Option.isSome_iff_exists.mp (hall a (List.mem_cons_self a rest))
      simp [List.filterMap_cons, hb,
        ih (fun x hx => hall x (List.mem_cons_of_mem a hx))]

theorem pruneLoop_eq_take (maxR : Int) (oid : String)
    (nm : String → Option StorageNode) (l : List (String × String)) :
    ∀ r : Int, pruneLoop maxR oid nm r l =
      (l.take (r - maxR).toNat).filterMap
        (fun p => (nm p.1).map (fun sn => ⟨sn, oid⟩)) := by
  induction l with
  | nil => intro r; simp [pruneLoop]
  | cons p rest ih =>
      intro r
      obtain ⟨n, v⟩ := p
      by_cases hr : r ≤ maxR
      · have h0 : (r - maxR).toNat = 0 := by omega
        simp [pruneLoop, hr, h0]
      · have h1 : (r - maxR).toNat = ((r - 1) - maxR).toNat + 1 := by omega
        rw [h1]
        cases hm : nm n with
        | none => simp [pruneLoop, hr, hm, ih]
        | some sn => simp [pruneLoop, hr, hm, ih]

/-- Counterexample to claim C5: max replicas 3, five owners iterated in
order a,b,c,d,e, every id resolvable.  The enqueued removal tasks target a
and b — the first two owners encountered — so the first max owners are not
retained: owner a, among the first three, receives a removal task, and the
task lists the claim predicts (removals of d and e, in either order) do not
occur.  Exactly 2 tasks are enqueued. -/
theorem pruneBlob_removes_first_encountered :
    pruneBlob 3 "p5" [("a", ""), ("b", ""), ("c", ""), ("d", ""), ("e", "")]
        [⟨"a"⟩, ⟨"b"⟩, ⟨"c"⟩, ⟨"d"⟩, ⟨"e"⟩] =
      [⟨⟨"a"⟩, "p5"⟩, ⟨⟨"b"⟩, "p5"⟩] ∧
    (pruneBlob 3 "p5" [("a", ""), ("b", ""), ("c", ""), ("d", ""), ("e", "")]
        [⟨"a"⟩, ⟨"b"⟩, ⟨"c"⟩, ⟨"d"⟩, ⟨"e"⟩]).length = 2 ∧
    pruneBlob 3 "p5" [("a", ""), ("b", ""), ("c", ""), ("d", ""), ("e", "")]
        [⟨"a"⟩, ⟨"b"⟩, ⟨"c"⟩, ⟨"d"⟩, ⟨"e"⟩] ≠
      [⟨⟨"d"⟩, "p5"⟩, ⟨⟨"e"⟩, "p5"⟩] ∧
    pruneBlob 3 "p5" [("a", ""), ("b", ""), ("c", ""), ("d", ""), ("e", "")]
        [⟨"a"⟩, ⟨"b"⟩, ⟨"c"⟩, ⟨"d"⟩, ⟨"e"⟩] ≠
      [⟨⟨"e"⟩, "p5"⟩, ⟨⟨"d"⟩, "p5"⟩] := by
  decide

/-- Claim C5 amended: with owner count n above the configured maximum, the
first n - max owners encountered while iterating the map are enqueued for
removal (those that resolve to a node descriptor; unresolvable ids are
silently skipped) and the remaining max owners are retained; when every id
resolves, exactly n - max removal tasks are enqueued — 2 for max replicas 3
and a 5-entry map. -/
theorem pruneBlob_spec (maxR : Int) (oid : String)
    (nodemap : List (String × String)) (nl : List StorageNode) (hmax : 0 ≤ maxR) :
    pruneBlob maxR oid nodemap nl =
      (nodemap.take ((nodemap.length : Int) - maxR).toNat).filterMap
        (fun p => (nodeByName nl p.1).map (fun sn => ⟨sn, oid⟩)) ∧
    ((∀ p ∈ nodemap, (nodeByName nl p.1).isSome = true) →
      (pruneBlob maxR oid nodemap nl).length =
        ((nodemap.length : Int) - maxR).toNat) := by
  have heq : pruneBlob maxR oid nodemap nl =
      (nodemap.take ((nodemap.length : Int) - maxR).toNat).filterMap
        (fun p => (nodeByName nl p.1).map (fun sn => ⟨sn, oid⟩)) :=
    pruneLoop_eq_take maxR oid (nodeByName nl) nodemap (nodemap.length : Int)
  refine ⟨heq, ?_⟩
  intro hall
  have hall2 : ∀ x ∈ List.take ((nodemap.length : Int) - maxR).toNat nodemap,
      ((fun p => (nodeByName nl p.1).map (fun sn => (⟨sn, oid⟩ : RemovalTask))) x).isSome
        = true := by
    intro x hx
    obtain ⟨sn, hsn⟩ :=
      Option.isSome_iff_exists.mp (hall x (List.take_subset _ _ hx))
    simp [hsn]
  rw [heq, length_filterMap_all_some _ _ hall2, List.length_take]
  have hle : ((nodemap.length : Int) - maxR).toNat ≤ nodemap.length := by omega
  omega

/-- Witness for pruneBlob_spec at the spec's example: max 3, five
resolvable owners, exactly 2 removal tasks. -/
theorem pruneBlob_spec_witness :
    (pruneBlob 3 "p6" [("a", ""), ("b", ""), ("c", ""), ("d", ""), ("e", "")]
        [⟨"a"⟩, ⟨"b"⟩, ⟨"c"⟩, ⟨"d"⟩, ⟨"e"⟩]).length = 2 := by
  have h := (pruneBlob_spec 3 "p6" [("a", ""), ("b", ""), ("c", ""), ("d", ""), ("e", "")]
      [⟨"a"⟩, ⟨"b"⟩, ⟨"c"⟩, ⟨"d"⟩, ⟨"e"⟩] (by decide)).2 (by decide)
  simpa using h

/-- Claim C7: performFetch with a local copy re-affirms ownership non-forced
and contacts no remote peer; on a successful pull with a previous owner
named it enqueues a removal at the resolved node, falling back to a direct
ownership-record edit when the id does not resolve; on a failed pull it
performs no affirmation, no record edit and no enqueue. -/
theorem performFetch_spec (env : FetchEnv) (oid prev : String) :
    (∀ sz, env.localSize = some sz →
      performFetch env oid prev = [.affirmOwnership oid sz false]) ∧
    (env.localSize = none → env.remoteErr = false → env.remoteStatus = 200 →
      prev ≠ "" → env.findNode prev = none →
      performFetch env oid prev = [.remoteFetch oid, .removeOwnerRecord oid prev]) ∧
    (∀ n, env.localSize = none → env.remoteErr = false → env.remoteStatus = 200 →
      prev ≠ "" → env.findNode prev = some n →
      performFetch env oid prev = [.remoteFetch oid, .queueRemoval n oid]) ∧
    (env.localSize = none → ¬ (env.remoteErr = false ∧ env.remoteStatus = 200) →
      performFetch env oid prev = [.remoteFetch oid]) := by
  refine ⟨?_, ?_, ?_, ?_⟩
  · intro sz hl
    simp [performFetch, hl]
  · intro hl herr hst hprev hfind
    have hpb : (prev != "") = true := by
      simpa using hprev
    simp [performFetch, hl, herr, hst, hpb, hfind]
  · intro n hl herr hst hprev hfind
    have hpb : (prev != "") = true := by
      simpa using hprev
    simp [performFetch, hl, herr, hst, hpb, hfind]
  · intro hl hfail
    have hcond : (!env.remoteErr && env.remoteStatus == 200) = false := by
      rcases Bool.eq_false_or_eq_true env.remoteErr with he | he
      · simp [he]
      · have hns : env.remoteStatus ≠ 200 := fun hs => hfail ⟨he, hs⟩
        simp [he]
        exact hns
    simp [performFetch, hl, hcond]

/-- Witness for performFetch_spec: the blob is already local with size 5, so
the only action is a non-forced ownership re-affirmation. -/
theorem performFetch_spec_witness :
    performFetch ⟨some 5, false, 0, fun _ => none⟩ "o7" "p7" =
      [.affirmOwnership "o7" 5 false] :=
  (performFetch_spec ⟨some 5, false, 0, fun _ => none⟩ "o7" "p7").1 5 rfl

/-- Claim C8: ensureMinimumReplicaCountTask queries the replica-count view
over exactly the key range [1, min(MinReplicas - 1, nodeCount - 1)] with the
configured batch limit, and salvages each returned blob id (row key minus
its leading slash) with an empty dead-node id and the full node list. -/
theorem ensureMinimumReplicaCount_spec (minReplicas checkLimit : Int)
    (nl : List StorageNode) (rows : List String) :
    (ensureMinimumReplicaCountTask minReplicas checkLimit nl rows).1.startkey = 1 ∧
    (ensureMinimumReplicaCountTask minReplicas checkLimit nl rows).1.endkey =
      min (minReplicas - 1) ((nl.length : Int) - 1) ∧
    (ensureMinimumReplicaCountTask minReplicas checkLimit nl rows).1.limit = checkLimit ∧
    (ensureMinimumReplicaCountTask minReplicas checkLimit nl rows).2 =
      rows.map (fun id => ⟨id.drop 1, "", nl⟩) := by
  refine ⟨rfl, ?_, rfl, rfl⟩
  simp only [ensureMinimumReplicaCountTask]
  by_cases hgt : minReplicas > (nl.length : Int)
  · simp only [hgt, if_true]
    omega
  · simp only [hgt, if_false]
    omega

/-- Claim C9: a dequeued internode task whose command tag is none of the
three defined commands hits the log.Fatalf default of the worker switch,
terminating the process: the worker trace ends at the fatal outcome and no
later queued task is processed. -/
theorem unrecognized_cmd_fatal (t : InternodeTask) (rest : List InternodeTask)
    (h0 : t.cmd ≠ removeObjectCmd) (h1 : t.cmd ≠ acquireObjectCmd)
    (h2 : t.cmd ≠ fetchObjectCmd) :
    dispatchTask t = .fatalError ∧
    internodeTaskWorker (t :: rest) = [.fatalError] := by
  have hd : dispatchTask t = .fatalError := by
    simp [dispatchTask, h0, h1, h2]
  refine ⟨hd, ?_⟩
  unfold internodeTaskWorker
  rw [hd]

/-- Witness for unrecognized_cmd_fatal: command tag 3 is unrecognized; the
worker hits the fatal default before an otherwise well-formed queued task. -/
theorem unrecognized_cmd_fatal_witness :
    dispatchTask ⟨⟨"n"⟩, 3, "o9", ""⟩ = .fatalError ∧
    internodeTaskWorker [⟨⟨"n"⟩, 3, "o9", ""⟩, ⟨⟨"n"⟩, 0, "o9", ""⟩] = [.fatalError] :=
  unrecognized_cmd_fatal ⟨⟨"n"⟩, 3, "o9", ""⟩ [⟨⟨"n"⟩, 0, "o9", ""⟩]
    (by decide) (by decide) (by decide)

/-- Claim C10 concerns totality of the recordBlobOwnership CAS callback.
The code falsifies it on a stored value that unmarshals successfully while
carrying no nodes mapping (for example the bytes of an empty json object, or
json null): the callback then assigns into a nil Go map and the process
panics, contradicting the pure proceed-or-abort mutation function the spec
describes and its rule that corrupt stored data never propagates as a
crash.  This theorem evaluates the embedded callback at that input. -/
theorem recordClosure_nil_map_panics :
    recordClosure "A" "h0" 0 false 0 (.record ⟨"", 0, none, ""⟩) = .panicked ∧
    recordBlobOwnership "A" "h0" 0 false 0 (.record ⟨"", 0, none, ""⟩) = none := by
  decide
